import Mathlib

/-!
Mandelbrot-OpenMP: escape-time evaluator and sampling pass

A shallow embedding of `src/Mandelbrot.cpp` (class `Mandelbrot`).

Modelling conventions.
* `std::complex<double>` is read with exact arithmetic: a pair of rationals
  (every finite `double` is a rational).  Rounding, infinities and NaN are not
  modelled.
* `int` values are mathematical integers; the one place where an `int`
  product can leave the 32-bit range (`245 * temp_iterations`) is wrapped
  explicitly, and the `Uint8` colour channels are reduced modulo 256.
* The OpenMP loops are read in sequential index order; no sample depends on
  another one.
* The SDL renderer is read as the list of (colour, point) draw requests it
  receives.
-/

namespace MandelbrotOMP

/-- The constant `HEIGHT` of the source. -/
def HEIGHT : Int := 400

/-- The constant `WIDTH` of the source. -/
def WIDTH : Int := 400

/-- Exact reading of `std::complex<double>`: real and imaginary part. -/
structure Cplx where
  re : ℚ
  im : ℚ
  deriving DecidableEq, Repr

namespace Cplx

/-- Complex sum, `operator+` of `std::complex`. -/
def add (a b : Cplx) : Cplx := ⟨a.re + b.re, a.im + b.im⟩

/-- Complex product, `operator*` of `std::complex`. -/
def mul (a b : Cplx) : Cplx :=
  ⟨a.re * b.re - a.im * b.im, a.re * b.im + a.im * b.re⟩

/-- Squared magnitude, `std::norm`. -/
def norm (a : Cplx) : ℚ := a.re * a.re + a.im * a.im

end Cplx

/-- Exact reading of `std::lerp(a, b, t)`, which is `a + t * (b - a)`. -/
def lerp (a b t : ℚ) : ℚ := a + t * (b - a)

/-- The data members of class `Mandelbrot` that the computation reads
(the renderer `artist` and the clock value `time_log` are left out). -/
structure Mandelbrot where
  iterations : Int
  min_lerp : ℚ
  max_lerp : ℚ
  starting_point : Cplx
  threshold : ℚ
  running : Bool
  deriving DecidableEq, Repr

namespace Mandelbrot

/-- Constructor `Mandelbrot(int iterations, std::complex<double> starting_point)`:
it stores its arguments and the defaults, with no check of any kind. -/
def new (iterations : Int) (starting_point : Cplx) : Mandelbrot :=
  { iterations := iterations
    starting_point := starting_point
    threshold := 4
    min_lerp := -2
    max_lerp := 2
    running := false }

/-- Method `setExplicitThreshold`. -/
def setExplicitThreshold (m : Mandelbrot) (threshold : ℚ) : Mandelbrot :=
  { m with threshold := threshold }

/-- Method `setIterations`. -/
def setIterations (m : Mandelbrot) (iterations : Int) : Mandelbrot :=
  { m with iterations := iterations }

/-- The `while` loop of `inside_the_mandelbrot`, entered with loop counter `i`
and current value `Z`.  The result is the value the method returns. -/
def insideLoop (m : Mandelbrot) (complexNumber : Cplx) (i : Int) (Z : Cplx) : Int :=
  if i < m.iterations ∧ Cplx.norm Z ≤ m.threshold then
    if i + 1 = m.iterations then
      i
    else
      insideLoop m complexNumber (i + 1) (Cplx.add (Cplx.mul Z Z) complexNumber)
  else
    0
termination_by (m.iterations - i).toNat
decreasing_by omega

/-- Method `inside_the_mandelbrot`. -/
def inside_the_mandelbrot (m : Mandelbrot) (complexNumber : Cplx) : Int :=
  insideLoop m complexNumber 0 m.starting_point

end Mandelbrot

/-- A 32-bit two's complement reading of an `int` result. -/
def wrapInt32 (x : Int) : Int := (x + 2 ^ 31) % 2 ^ 32 - 2 ^ 31

/-- Conversion of an `int` argument to a `Uint8` parameter. -/
def toUint8 (x : Int) : Nat := (x % 256).toNat

/-- The C expression `245 * temp_iterations % 255` on `int`: the product is
taken in 32 bits and `%` truncates towards zero. -/
def shade (temp_iterations : Int) : Int :=
  Int.tmod (wrapInt32 (245 * temp_iterations)) 255

/-- One draw request reaching the renderer: the colour set by
`SDL_SetRenderDrawColor` and the point passed to `SDL_RenderDrawPointF`. -/
structure Draw where
  r : Nat
  g : Nat
  b : Nat
  a : Nat
  x : ℚ
  y : ℚ
  deriving DecidableEq, Repr

namespace Mandelbrot

/-- The value `point_a` (and `point_b`) of `visualize` for a grid index. -/
def point (m : Mandelbrot) (i : Int) : ℚ := (i : ℚ) / (m.iterations : ℚ)

/-- The value `x` (and `y`) of `visualize` for a grid index. -/
def coord (m : Mandelbrot) (i : Int) : ℚ := lerp m.min_lerp m.max_lerp (m.point i)

/-- The colour arguments `visualize` passes to `SDL_SetRenderDrawColor` for an
evaluator result `temp_iterations`. -/
def colour (temp_iterations : Int) : Nat × Nat × Nat × Nat :=
  if temp_iterations = 0 then
    (0, 0, 0, 255)
  else
    (toUint8 (shade temp_iterations), toUint8 (shade temp_iterations),
      toUint8 (shade temp_iterations), 255)

/-- The body of the two nested loops of `visualize` at grid index `(i, j)`. -/
def sample (m : Mandelbrot) (i j : Int) : Draw :=
  let point_a := m.point i
  let point_b := m.point j
  let x := lerp m.min_lerp m.max_lerp point_a
  let y := lerp m.min_lerp m.max_lerp point_b
  let temp_iterations := m.inside_the_mandelbrot ⟨x, y⟩
  let col := colour temp_iterations
  { r := col.1, g := col.2.1, b := col.2.2.1, a := col.2.2.2
    x := point_a * (WIDTH : ℚ), y := point_b * (HEIGHT : ℚ) }

/-- The sampling pass of `visualize`: the draw requests of the nested loops
`for i in [0, iterations)`, `for j in [0, iterations)`. -/
def visualize (m : Mandelbrot) : List Draw :=
  (List.range m.iterations.toNat).flatMap fun (i : Nat) =>
    (List.range m.iterations.toNat).map fun (j : Nat) => m.sample (i : Int) (j : Int)

end Mandelbrot

/-- The orbit of the claims: `z_0 = s`, `z_{k+1} = z_k^2 + c`. -/
def orbit (c s : Cplx) : Nat → Cplx
  | 0 => s
  | k + 1 => Cplx.add (Cplx.mul (orbit c s k) (orbit c s k)) c

/-! ## Helper lemmas -/

theorem orbit_shift (c s : Cplx) (k : Nat) :
    orbit c s (k + 1) = orbit c (Cplx.add (Cplx.mul s s) c) k := by
  induction k with
  | zero => rfl
  | succ k ih =>
    show Cplx.add (Cplx.mul (orbit c s (k + 1)) (orbit c s (k + 1))) c = _
    rw [ih]
    rfl

/-- The loop entered at counter `i` with `d + 1` rounds left returns
`iterations - 1` when the next `d + 1` tested values stay within the threshold,
and `0` otherwise. -/
theorem insideLoop_eq (m : Mandelbrot) (c : Cplx) (d : Nat) :
    ∀ (i : Int) (Z : Cplx), m.iterations - i = (d : Int) + 1 →
      m.insideLoop c i Z =
        if ∀ k : Nat, k ≤ d → Cplx.norm (orbit c Z k) ≤ m.threshold then m.iterations - 1
        else 0 := by
  induction d with
  | zero =>
    intro i Z h
    have hlt : i < m.iterations := by omega
    have hlast : i + 1 = m.iterations := by omega
    rw [Mandelbrot.insideLoop]
    by_cases hn : Cplx.norm Z ≤ m.threshold
    · have hall : ∀ k : Nat, k ≤ 0 → Cplx.norm (orbit c Z k) ≤ m.threshold := by
        intro k hk
        have hk0 : k = 0 := by omega
        subst hk0
        exact hn
      rw [if_pos ⟨hlt, hn⟩, if_pos hlast, if_pos hall]
      omega
    · have hall : ¬ ∀ k : Nat, k ≤ 0 → Cplx.norm (orbit c Z k) ≤ m.threshold := by
        intro hall
        exact hn (hall 0 (le_refl 0))
      rw [if_neg (fun hc => hn hc.2), if_neg hall]
  | succ d ih =>
    intro i Z h
    have hlt : i < m.iterations := by omega
    have hlast : ¬ i + 1 = m.iterations := by omega
    rw [Mandelbrot.insideLoop]
    by_cases hn : Cplx.norm Z ≤ m.threshold
    · rw [if_pos ⟨hlt, hn⟩, if_neg hlast,
        ih (i + 1) (Cplx.add (Cplx.mul Z Z) c) (by push_cast at h ⊢; omega)]
      by_cases hall : ∀ k : Nat, k ≤ d → Cplx.norm (orbit c (Cplx.add (Cplx.mul Z Z) c) k)
          ≤ m.threshold
      · have hall2 : ∀ k : Nat, k ≤ d + 1 → Cplx.norm (orbit c Z k) ≤ m.threshold := by
          intro k hk
          cases k with
          | zero => exact hn
          | succ k =>
            rw [orbit_shift]
            exact hall k (by omega)
        rw [if_pos hall, if_pos hall2]
      · have hall2 : ¬ ∀ k : Nat, k ≤ d + 1 → Cplx.norm (orbit c Z k) ≤ m.threshold := by
          intro h2
          apply hall
          intro k hk
          rw [← orbit_shift]
          exact h2 (k + 1) (by omega)
        rw [if_neg hall, if_neg hall2]
    · have hall : ¬ ∀ k : Nat, k ≤ d + 1 → Cplx.norm (orbit c Z k) ≤ m.threshold := by
        intro hall
        exact hn (hall 0 (Nat.zero_le _))
      rw [if_neg (fun hc => hn hc.2), if_neg hall]

/-- With a non-positive iteration count the loop body never runs. -/
theorem insideLoop_nonpos (m : Mandelbrot) (c : Cplx) (i : Int) (Z : Cplx)
    (h : m.iterations ≤ i) : m.insideLoop c i Z = 0 := by
  rw [Mandelbrot.insideLoop]
  rw [if_neg]
  intro hc
  omega

/-- Characterisation of `inside_the_mandelbrot` for a budget of `d + 1`. -/
theorem inside_eq (m : Mandelbrot) (c : Cplx) (d : Nat) (h : m.iterations = (d : Int) + 1) :
    m.inside_the_mandelbrot c =
      if ∀ k : Nat, k ≤ d → Cplx.norm (orbit c m.starting_point k) ≤ m.threshold
      then m.iterations - 1 else 0 := by
  unfold Mandelbrot.inside_the_mandelbrot
  exact insideLoop_eq m c d 0 m.starting_point (by omega)

/-- The evaluator returns `0` or `iterations - 1`; in particular a value in
`[0, iterations)` once the budget is positive. -/
theorem inside_zero_or_last (m : Mandelbrot) (c : Cplx) (h : 1 ≤ m.iterations) :
    m.inside_the_mandelbrot c = 0 ∨ m.inside_the_mandelbrot c = m.iterations - 1 := by
  have hd : m.iterations = ((m.iterations - 1).toNat : Int) + 1 := by omega
  rw [inside_eq m c _ hd]
  split
  · exact Or.inr rfl
  · exact Or.inl rfl

/-- A point whose first iterate already exceeds the threshold gets result `0`,
whatever the budget. -/
theorem inside_escape_first (m : Mandelbrot) (c : Cplx)
    (hesc : m.threshold < Cplx.norm (orbit c m.starting_point 1)) :
    m.inside_the_mandelbrot c = 0 := by
  by_cases hn : m.iterations ≤ 0
  · exact insideLoop_nonpos m c 0 m.starting_point hn
  · have hd : m.iterations = ((m.iterations - 1).toNat : Int) + 1 := by omega
    rw [inside_eq m c _ hd]
    split
    · rename_i hall
      by_cases h1 : 1 ≤ (m.iterations - 1).toNat
      · exact absurd (hall 1 h1) (not_le.mpr hesc)
      · omega
    · rfl

/-- On the real axis between `-1` and `0` the orbit of `0` stays real and
between `c` and `0`. -/
theorem orbit_real_axis (a : ℚ) (ha : -1 ≤ a) (ha0 : a ≤ 0) (k : Nat) :
    (orbit ⟨a, 0⟩ ⟨0, 0⟩ k).im = 0 ∧ a ≤ (orbit ⟨a, 0⟩ ⟨0, 0⟩ k).re ∧
      (orbit ⟨a, 0⟩ ⟨0, 0⟩ k).re ≤ 0 := by
  induction k with
  | zero => exact ⟨rfl, ha0, le_refl _⟩
  | succ k ih =>
    obtain ⟨him, hlo, hhi⟩ := ih
    simp only [orbit, Cplx.add, Cplx.mul]
    rw [him]
    refine ⟨by ring, ?_, ?_⟩
    · nlinarith [mul_self_nonneg (orbit ⟨a, 0⟩ ⟨0, 0⟩ k).re]
    · nlinarith [mul_nonneg (sub_nonneg.mpr hlo) (neg_nonneg.mpr hhi),
        mul_nonneg (neg_nonneg.mpr ha0) (add_nonneg (by linarith : (0 : ℚ) ≤ 1 + a) (le_refl 0)),
        mul_nonneg (neg_nonneg.mpr hhi) (neg_nonneg.mpr ha0)]

theorem orbit_real_axis_norm (a : ℚ) (ha : -1 ≤ a) (ha0 : a ≤ 0) (k : Nat) :
    Cplx.norm (orbit ⟨a, 0⟩ ⟨0, 0⟩ k) ≤ 1 := by
  obtain ⟨him, hlo, hhi⟩ := orbit_real_axis a ha ha0 k
  unfold Cplx.norm
  rw [him]
  nlinarith [mul_nonneg (sub_nonneg.mpr hlo) (neg_nonneg.mpr hhi)]

/-- From starting point `0`, a real `c` in `[-1, 0]` survives every test, so
the evaluator returns the budget minus one. -/
theorem inside_real_axis (m : Mandelbrot) (a : ℚ) (d : Nat) (ha : -1 ≤ a) (ha0 : a ≤ 0)
    (hs : m.starting_point = ⟨0, 0⟩) (ht : 1 ≤ m.threshold) (hn : m.iterations = (d : Int) + 1) :
    m.inside_the_mandelbrot ⟨a, 0⟩ = d := by
  rw [inside_eq m ⟨a, 0⟩ d hn, hs, if_pos]
  · omega
  · intro k _
    exact le_trans (orbit_real_axis_norm a ha ha0 k) ht

/-- Without overflow and for a non-negative result, the shade is the
mathematical remainder. -/
theorem shade_eq (r : Int) (h0 : 0 ≤ r) (h : 245 * r < 2 ^ 31) :
    shade r = (245 * r) % 255 := by
  have hw : wrapInt32 (245 * r) = 245 * r := by
    unfold wrapInt32
    omega
  unfold shade
  rw [hw]
  exact Int.tmod_eq_emod (by omega) (by decide)

/-- The colour of a sample is the colour of the evaluator result at the
interpolated coordinates. -/
theorem sample_colour (m : Mandelbrot) (i j : Int) :
    ((m.sample i j).r, (m.sample i j).g, (m.sample i j).b, (m.sample i j).a) =
      Mandelbrot.colour (m.inside_the_mandelbrot ⟨m.coord i, m.coord j⟩) := rfl

/-- Every draw request of the pass is the sample of some grid index pair
within the loop bounds. -/
theorem mem_visualize (m : Mandelbrot) (d : Draw) (h : d ∈ m.visualize) :
    ∃ i j : Nat, (i : Int) < m.iterations ∧ (j : Int) < m.iterations ∧
      d = m.sample (i : Int) (j : Int) := by
  unfold Mandelbrot.visualize at h
  rw [List.mem_flatMap] at h
  obtain ⟨i, hi, hd⟩ := h
  rw [List.mem_map] at hd
  obtain ⟨j, hj, hd⟩ := hd
  rw [List.mem_range] at hi hj
  exact ⟨i, j, by omega, by omega, hd.symm⟩

/-- Each grid index pair within the loop bounds is drawn by the pass. -/
theorem sample_mem_visualize (m : Mandelbrot) (i j : Nat) (hi : (i : Int) < m.iterations)
    (hj : (j : Int) < m.iterations) : m.sample (i : Int) (j : Int) ∈ m.visualize := by
  unfold Mandelbrot.visualize
  rw [List.mem_flatMap]
  refine ⟨i, List.mem_range.mpr (by omega), ?_⟩
  rw [List.mem_map]
  exact ⟨j, List.mem_range.mpr (by omega), rfl⟩

/-! ## The evaluator `inside_the_mandelbrot` -/

/-- C1 (the code departs from the claim): with starting point 0 and threshold 4
the point `c = 0`, whose orbit never leaves 0, is returned `budget - 1` for
every budget `d + 1`, which is non-zero from budget 2 on, and `c = -1` with
budget 50 is returned 49.  The value 0 is returned for them only with budget 1. -/
theorem inside_bounded_orbit_returns_last :
    (∀ d : Nat, (Mandelbrot.new ((d : Int) + 1) ⟨0, 0⟩).inside_the_mandelbrot ⟨0, 0⟩ = d) ∧
      (Mandelbrot.new 2 ⟨0, 0⟩).inside_the_mandelbrot ⟨0, 0⟩ = 1 ∧
      (Mandelbrot.new 50 ⟨0, 0⟩).inside_the_mandelbrot ⟨-1, 0⟩ = 49 := by
  refine ⟨fun d => ?_, ?_, ?_⟩
  · exact inside_real_axis _ 0 d (by norm_num) (le_refl _) rfl
      (by norm_num [Mandelbrot.new]) rfl
  · exact inside_real_axis _ 0 1 (by norm_num) (le_refl _) rfl
      (by norm_num [Mandelbrot.new]) rfl
  · exact inside_real_axis _ (-1) 49 (le_refl _) (by norm_num) rfl
      (by norm_num [Mandelbrot.new]) rfl

/-- C2 (the code departs from the claim): with starting point 0 and threshold 4,
every `c` with squared magnitude above 4 is returned 0, for every budget, and
never a positive value. -/
theorem inside_escaping_returns_zero (c : Cplx) (n : Int) (h : 4 < Cplx.norm c) :
    (Mandelbrot.new n ⟨0, 0⟩).inside_the_mandelbrot c = 0 := by
  apply inside_escape_first
  have h1 : orbit c (Mandelbrot.new n ⟨0, 0⟩).starting_point 1 = c := by
    simp [orbit, Mandelbrot.new, Cplx.add, Cplx.mul]
  rw [h1]
  exact h

/-- C2, at `c = 2 + 2i` with budget 50: the squared magnitude is 8 and the
result is 0. -/
theorem inside_escaping_returns_zero_witness :
    4 < Cplx.norm ⟨2, 2⟩ ∧ (Mandelbrot.new 50 ⟨0, 0⟩).inside_the_mandelbrot ⟨2, 2⟩ = 0 :=
  ⟨by norm_num [Cplx.norm], inside_escaping_returns_zero ⟨2, 2⟩ 50 (by norm_num [Cplx.norm])⟩

/-- C3 (the code departs from the claim): with budget 2, starting point 0 and
threshold 4, `c = 0` is returned the non-zero value `r = 1`, although `r + 1`
is the budget itself and no iterate ever exceeds the threshold. -/
theorem inside_nonzero_without_escape :
    (Mandelbrot.new 2 ⟨0, 0⟩).inside_the_mandelbrot ⟨0, 0⟩ = 1 ∧
      (Mandelbrot.new 2 ⟨0, 0⟩).inside_the_mandelbrot ⟨0, 0⟩ + 1 =
        (Mandelbrot.new 2 ⟨0, 0⟩).iterations ∧
      ∀ k : Nat, Cplx.norm (orbit ⟨0, 0⟩ (Mandelbrot.new 2 ⟨0, 0⟩).starting_point k) ≤
        (Mandelbrot.new 2 ⟨0, 0⟩).threshold := by
  have hr : (Mandelbrot.new 2 ⟨0, 0⟩).inside_the_mandelbrot ⟨0, 0⟩ = 1 :=
    inside_real_axis _ 0 1 (by norm_num) (le_refl _) rfl (by norm_num [Mandelbrot.new]) rfl
  refine ⟨hr, ?_, ?_⟩
  · rw [hr]
    rfl
  · intro k
    have := orbit_real_axis_norm 0 (by norm_num) (le_refl _) k
    show Cplx.norm (orbit ⟨0, 0⟩ ⟨0, 0⟩ k) ≤ 4
    linarith

/-- C5: for every configuration with a budget of at least 1 and every `c`, the
value returned by `inside_the_mandelbrot` lies in `[0, budget)`. -/
theorem inside_result_range (m : Mandelbrot) (c : Cplx) (h : 1 ≤ m.iterations) :
    0 ≤ m.inside_the_mandelbrot c ∧ m.inside_the_mandelbrot c < m.iterations := by
  rcases inside_zero_or_last m c h with h0 | h1
  · rw [h0]
    exact ⟨le_refl _, by omega⟩
  · rw [h1]
    exact ⟨by omega, by omega⟩

/-- C5 at budget 50, starting point 0, threshold 4 and `c = -1`. -/
theorem inside_result_range_witness :
    1 ≤ (Mandelbrot.new 50 ⟨0, 0⟩).iterations ∧
      0 ≤ (Mandelbrot.new 50 ⟨0, 0⟩).inside_the_mandelbrot ⟨-1, 0⟩ ∧
      (Mandelbrot.new 50 ⟨0, 0⟩).inside_the_mandelbrot ⟨-1, 0⟩ <
        (Mandelbrot.new 50 ⟨0, 0⟩).iterations :=
  ⟨by decide, inside_result_range (Mandelbrot.new 50 ⟨0, 0⟩) ⟨-1, 0⟩ (by decide)⟩

/-- C9: with exact arithmetic, for every configuration (budget `n`, starting
point `s`, threshold `t`) and every `c`, with `z_0 = s`, `z_{k+1} = z_k^2 + c`:
the result is `n - 1` when `n ≥ 1` and `|z_k|^2 ≤ t` for every `k` in `0..n-1`;
it is `0` when some `k` in `0..n-1` has `|z_k|^2 > t`; it is `0` when `n ≤ 0`
and when `n = 1`; so for `n ≥ 1` it is `0` or `n - 1`.  The iterate `z_n` is
not tested: with `n = 2`, `c = 3/2` the result is `1` although `|z_2|^2 > 4`. -/
theorem inside_characterisation (m : Mandelbrot) (c : Cplx) :
    ((∀ k : Nat, (k : Int) < m.iterations →
          Cplx.norm (orbit c m.starting_point k) ≤ m.threshold) →
        1 ≤ m.iterations → m.inside_the_mandelbrot c = m.iterations - 1) ∧
      ((∃ k : Nat, (k : Int) < m.iterations ∧
          m.threshold < Cplx.norm (orbit c m.starting_point k)) →
        m.inside_the_mandelbrot c = 0) ∧
      (m.iterations ≤ 0 → m.inside_the_mandelbrot c = 0) ∧
      (m.iterations = 1 → m.inside_the_mandelbrot c = 0) ∧
      (1 ≤ m.iterations →
        m.inside_the_mandelbrot c = 0 ∨ m.inside_the_mandelbrot c = m.iterations - 1) ∧
      ((Mandelbrot.new 2 ⟨0, 0⟩).inside_the_mandelbrot ⟨3 / 2, 0⟩ = 1 ∧
        (Mandelbrot.new 2 ⟨0, 0⟩).threshold <
          Cplx.norm (orbit ⟨3 / 2, 0⟩ (Mandelbrot.new 2 ⟨0, 0⟩).starting_point 2)) := by
  refine ⟨?_, ?_, ?_, ?_, ?_, ?_, ?_⟩
  · intro hall hn
    have hd : m.iterations = ((m.iterations - 1).toNat : Int) + 1 := by omega
    rw [inside_eq m c _ hd, if_pos]
    intro k hk
    exact hall k (by omega)
  · rintro ⟨k, hk, hesc⟩
    have hd : m.iterations = ((m.iterations - 1).toNat : Int) + 1 := by omega
    rw [inside_eq m c _ hd, if_neg]
    intro hall
    exact absurd (hall k (by omega)) (not_le.mpr hesc)
  · intro hn
    exact insideLoop_nonpos m c 0 m.starting_point hn
  · intro hn
    rcases inside_zero_or_last m c (by omega) with h0 | h1
    · exact h0
    · rw [h1]
      omega
  · exact inside_zero_or_last m c
  · have hd : (Mandelbrot.new 2 ⟨0, 0⟩).iterations = ((1 : Nat) : Int) + 1 := rfl
    rw [inside_eq _ _ 1 hd, if_pos]
    · rfl
    · intro k hk
      interval_cases k <;> norm_num [orbit, Mandelbrot.new, Cplx.norm, Cplx.add, Cplx.mul]
  · norm_num [orbit, Mandelbrot.new, Cplx.norm, Cplx.add, Cplx.mul]

/-- C9 at budget 50, starting point 0, threshold 4: `c = -1` never exceeds the
threshold and gets 49; `c = 2 + 2i` exceeds it at `k = 1` and gets 0. -/
theorem inside_characterisation_witness :
    (Mandelbrot.new 50 ⟨0, 0⟩).inside_the_mandelbrot ⟨-1, 0⟩ = 49 ∧
      (Mandelbrot.new 50 ⟨0, 0⟩).inside_the_mandelbrot ⟨2, 2⟩ = 0 :=
  ⟨(inside_characterisation (Mandelbrot.new 50 ⟨0, 0⟩) ⟨-1, 0⟩).1
      (fun k _ => le_trans (orbit_real_axis_norm (-1) (le_refl _) (by norm_num) k)
        (by norm_num [Mandelbrot.new]))
      (by decide),
    (inside_characterisation (Mandelbrot.new 50 ⟨0, 0⟩) ⟨2, 2⟩).2.1
      ⟨1, by decide, by norm_num [orbit, Mandelbrot.new, Cplx.norm, Cplx.add, Cplx.mul]⟩⟩

/-! ## The sampling pass of `visualize` -/

/-- The colour channel of a non-zero, non-overflowing result. -/
theorem colour_pos (r : Int) (hpos : 0 < r) (hno : 245 * r < 2 ^ 31) :
    Mandelbrot.colour r =
      (((245 * r) % 255).toNat, ((245 * r) % 255).toNat, ((245 * r) % 255).toNat, 255) := by
  have hs := shade_eq r (le_of_lt hpos) hno
  have hu : toUint8 (shade r) = ((245 * r) % 255).toNat := by
    unfold toUint8
    rw [hs]
    congr 1
    omega
  unfold Mandelbrot.colour
  rw [if_neg (by omega), hu]

/-- C4 (the code departs from the claim): in the pass with budget 100 and the
default viewport, the samples at grid index `(37, 50)` and `(38, 50)`, which
evaluate `c = -0.52` and `c = -0.48`, are drawn grey `(30, 30, 30)` and not
black, and the samples at grid indices 87 or 88 on both axes, which evaluate
`1.48` or `1.52` on both axes, are drawn black. -/
theorem pass_100_colours :
    ((Mandelbrot.new 100 ⟨0, 0⟩).coord 37 = -13 / 25 ∧
      (Mandelbrot.new 100 ⟨0, 0⟩).coord 38 = -12 / 25 ∧
      (Mandelbrot.new 100 ⟨0, 0⟩).coord 50 = 0 ∧
      (Mandelbrot.new 100 ⟨0, 0⟩).coord 87 = 37 / 25 ∧
      (Mandelbrot.new 100 ⟨0, 0⟩).coord 88 = 38 / 25) ∧
    (∀ i ∈ [37, 38], ∀ d : Draw, d = (Mandelbrot.new 100 ⟨0, 0⟩).sample i 50 →
      d ∈ (Mandelbrot.new 100 ⟨0, 0⟩).visualize ∧ (d.r, d.g, d.b, d.a) = (30, 30, 30, 255)) ∧
    (∀ i ∈ [87, 88], ∀ j ∈ [87, 88], ∀ d : Draw,
      d = (Mandelbrot.new 100 ⟨0, 0⟩).sample i j →
      d ∈ (Mandelbrot.new 100 ⟨0, 0⟩).visualize ∧ (d.r, d.g, d.b, d.a) = (0, 0, 0, 255)) := by
  have c37 : (Mandelbrot.new 100 ⟨0, 0⟩).coord 37 = -13 / 25 := by
    norm_num [Mandelbrot.coord, Mandelbrot.point, Mandelbrot.new, lerp]
  have c38 : (Mandelbrot.new 100 ⟨0, 0⟩).coord 38 = -12 / 25 := by
    norm_num [Mandelbrot.coord, Mandelbrot.point, Mandelbrot.new, lerp]
  have c50 : (Mandelbrot.new 100 ⟨0, 0⟩).coord 50 = 0 := by
    norm_num [Mandelbrot.coord, Mandelbrot.point, Mandelbrot.new, lerp]
  have c87 : (Mandelbrot.new 100 ⟨0, 0⟩).coord 87 = 37 / 25 := by
    norm_num [Mandelbrot.coord, Mandelbrot.point, Mandelbrot.new, lerp]
  have c88 : (Mandelbrot.new 100 ⟨0, 0⟩).coord 88 = 38 / 25 := by
    norm_num [Mandelbrot.coord, Mandelbrot.point, Mandelbrot.new, lerp]
  have hin : ∀ a : ℚ, -1 ≤ a → a ≤ 0 →
      Mandelbrot.colour ((Mandelbrot.new 100 ⟨0, 0⟩).inside_the_mandelbrot ⟨a, 0⟩) =
        (30, 30, 30, 255) := by
    intro a ha ha0
    rw [inside_real_axis _ a 99 ha ha0 rfl (by norm_num [Mandelbrot.new]) rfl]
    rfl
  have hout : ∀ x y : ℚ, 37 / 25 ≤ x → 37 / 25 ≤ y →
      Mandelbrot.colour ((Mandelbrot.new 100 ⟨0, 0⟩).inside_the_mandelbrot ⟨x, y⟩) =
        (0, 0, 0, 255) := by
    intro x y hx hy
    rw [inside_escape_first]
    · rfl
    · simp only [orbit, Mandelbrot.new, Cplx.norm, Cplx.add, Cplx.mul]
      nlinarith
  refine ⟨⟨c37, c38, c50, c87, c88⟩, ?_, ?_⟩
  · intro i hi d hd
    simp only [List.mem_cons, List.mem_singleton, List.not_mem_nil, or_false] at hi
    subst hd
    rcases hi with rfl | rfl
    · refine ⟨sample_mem_visualize _ 37 50 (by decide) (by decide), ?_⟩
      rw [sample_colour, c37, c50]
      exact hin _ (by norm_num) (by norm_num)
    · refine ⟨sample_mem_visualize _ 38 50 (by decide) (by decide), ?_⟩
      rw [sample_colour, c38, c50]
      exact hin _ (by norm_num) (by norm_num)
  · intro i hi j hj d hd
    simp only [List.mem_cons, List.mem_singleton, List.not_mem_nil, or_false] at hi hj
    subst hd
    rcases hi with rfl | rfl <;> rcases hj with rfl | rfl
    · refine ⟨sample_mem_visualize _ 87 87 (by decide) (by decide), ?_⟩
      rw [sample_colour, c87]
      exact hout _ _ (by norm_num) (by norm_num)
    · refine ⟨sample_mem_visualize _ 87 88 (by decide) (by decide), ?_⟩
      rw [sample_colour, c87, c88]
      exact hout _ _ (by norm_num) (by norm_num)
    · refine ⟨sample_mem_visualize _ 88 87 (by decide) (by decide), ?_⟩
      rw [sample_colour, c87, c88]
      exact hout _ _ (by norm_num) (by norm_num)
    · refine ⟨sample_mem_visualize _ 88 88 (by decide) (by decide), ?_⟩
      rw [sample_colour, c88]
      exact hout _ _ (by norm_num) (by norm_num)

/-- C6: the colour of the sample at `(i, j)` is `colour` applied to the
evaluator result alone; result 0 gives `(0, 0, 0, 255)`; a result `r > 0` with
`245 * r < 2^31` gives `(g, g, g, 255)` with `g = (245 * r) mod 255`, and this
`g` lies in `[0, 254]`, so the conversion to the 8-bit channel keeps it. -/
theorem sample_colour_of_result (m : Mandelbrot) (i j : Int) (r : Int) (hpos : 0 < r)
    (hno : 245 * r < 2 ^ 31) :
    ((m.sample i j).r, (m.sample i j).g, (m.sample i j).b, (m.sample i j).a) =
        Mandelbrot.colour (m.inside_the_mandelbrot ⟨m.coord i, m.coord j⟩) ∧
      Mandelbrot.colour 0 = (0, 0, 0, 255) ∧
      Mandelbrot.colour r =
        (((245 * r) % 255).toNat, ((245 * r) % 255).toNat, ((245 * r) % 255).toNat, 255) ∧
      shade r = (245 * r) % 255 ∧ 0 ≤ shade r ∧ shade r ≤ 254 ∧
      ((toUint8 (shade r) : Nat) : Int) = shade r := by
  have hs := shade_eq r (le_of_lt hpos) hno
  refine ⟨sample_colour m i j, rfl, colour_pos r hpos hno, hs, ?_, ?_, ?_⟩
  · rw [hs]; omega
  · rw [hs]; omega
  · unfold toUint8
    rw [hs]
    omega

/-- C6 for the result 99 at sample `(37, 50)` of the pass with budget 100: the
channel value is 30. -/
theorem sample_colour_of_result_witness :
    (0 : Int) < 99 ∧ (245 : Int) * 99 < 2 ^ 31 ∧
      Mandelbrot.colour 99 = (30, 30, 30, 255) ∧ shade 99 = 30 :=
  ⟨by decide, by decide,
    (sample_colour_of_result (Mandelbrot.new 100 ⟨0, 0⟩) 37 50 99 (by decide) (by decide)).2.2.1,
    (sample_colour_of_result (Mandelbrot.new 100 ⟨0, 0⟩) 37 50 99 (by decide)
      (by decide)).2.2.2.1⟩

/-- C7: with exact arithmetic, budget `n ≥ 1` and the default viewport
`[-2, 2]`: grid index 0 maps to `u = 0` and `x = lerp(-2, 2, 0) = -2`; every
index `i` with `0 ≤ i < n` maps to `u = i / n` in `[0, 1)` and
`x = lerp(-2, 2, i / n)` in `[-2, 2)`; index `n - 1` maps to `2 - 4 / n < 2`.
The same function gives `v` and `y` from `j`. -/
theorem grid_to_viewport (n : Int) (s : Cplx) (i : Int) (hn : 1 ≤ n) (h0 : 0 ≤ i)
    (hi : i < n) :
    (Mandelbrot.new n s).point 0 = 0 ∧ (Mandelbrot.new n s).coord 0 = lerp (-2) 2 0 ∧
      (Mandelbrot.new n s).coord 0 = -2 ∧
      (Mandelbrot.new n s).point i = (i : ℚ) / (n : ℚ) ∧
      0 ≤ (Mandelbrot.new n s).point i ∧ (Mandelbrot.new n s).point i < 1 ∧
      (Mandelbrot.new n s).coord i = lerp (-2) 2 ((i : ℚ) / (n : ℚ)) ∧
      -2 ≤ (Mandelbrot.new n s).coord i ∧ (Mandelbrot.new n s).coord i < 2 ∧
      (Mandelbrot.new n s).coord (n - 1) = 2 - 4 / (n : ℚ) ∧
      (Mandelbrot.new n s).coord (n - 1) < 2 := by
  have hnq : (0 : ℚ) < (n : ℚ) := by exact_mod_cast (by omega : (0 : Int) < n)
  have hiq : (0 : ℚ) ≤ (i : ℚ) := by exact_mod_cast h0
  have hlt : (i : ℚ) < (n : ℚ) := by exact_mod_cast hi
  have hu0 : (0 : ℚ) ≤ (i : ℚ) / (n : ℚ) := div_nonneg hiq (le_of_lt hnq)
  have hu1 : (i : ℚ) / (n : ℚ) < 1 := (div_lt_one hnq).mpr hlt
  have hlast : (Mandelbrot.new n s).coord (n - 1) = 2 - 4 / (n : ℚ) := by
    simp only [Mandelbrot.coord, Mandelbrot.point, Mandelbrot.new, lerp]
    push_cast
    field_simp
    ring
  refine ⟨?_, ?_, ?_, rfl, hu0, hu1, rfl, ?_, ?_, hlast, ?_⟩
  · simp [Mandelbrot.point]
  · simp [Mandelbrot.coord, Mandelbrot.point, Mandelbrot.new]
  · simp [Mandelbrot.coord, Mandelbrot.point, Mandelbrot.new, lerp]
  · simp only [Mandelbrot.coord, Mandelbrot.point, Mandelbrot.new, lerp]
    linarith
  · simp only [Mandelbrot.coord, Mandelbrot.point, Mandelbrot.new, lerp]
    linarith
  · rw [hlast]
    have : (0 : ℚ) < 4 / (n : ℚ) := div_pos (by norm_num) hnq
    linarith

/-- C7 at budget 100 and grid index 37: `u = 37/100`, `x = -13/25`, and the
last index 99 maps to `49/25`. -/
theorem grid_to_viewport_witness :
    (1 : Int) ≤ 100 ∧ (0 : Int) ≤ 37 ∧ (37 : Int) < 100 ∧
      (Mandelbrot.new 100 ⟨0, 0⟩).point 37 = ((37 : Int) : ℚ) / ((100 : Int) : ℚ) ∧
      (Mandelbrot.new 100 ⟨0, 0⟩).coord 37 < 2 ∧
      (Mandelbrot.new 100 ⟨0, 0⟩).coord (100 - 1) = 2 - 4 / ((100 : Int) : ℚ) :=
  ⟨by decide, by decide, by decide,
    (grid_to_viewport 100 ⟨0, 0⟩ 37 (by decide) (by decide) (by decide)).2.2.2.1,
    (grid_to_viewport 100 ⟨0, 0⟩ 37 (by decide) (by decide) (by decide)).2.2.2.2.2.2.2.2.1,
    (grid_to_viewport 100 ⟨0, 0⟩ 37 (by decide) (by decide) (by decide)).2.2.2.2.2.2.2.2.2.1⟩

/-- C8, counterexample: constructing with budget 0 yields a configuration
whose budget is 0, `setIterations(-3)` on a valid configuration stores -3, and
both the evaluator and the sampling pass run on the configuration with budget 0
(returning 0 and drawing nothing). -/
theorem nonpositive_budget_accepted :
    (Mandelbrot.new 0 ⟨0, 0⟩).iterations = 0 ∧
      ((Mandelbrot.new 1000 ⟨0, 0⟩).setIterations (-3)).iterations = -3 ∧
      (Mandelbrot.new 0 ⟨0, 0⟩).inside_the_mandelbrot ⟨2, 2⟩ = 0 ∧
      (Mandelbrot.new 0 ⟨0, 0⟩).visualize = [] :=
  ⟨rfl, rfl, insideLoop_nonpos _ _ 0 _ (by decide), rfl⟩

/-- C8, amended: no budget is rejected.  For every `n ≤ 0` the constructor and
`setIterations(n)` store `n` unchanged; on the resulting configuration
`inside_the_mandelbrot` returns 0 for every `c` and the sampling pass of
`visualize` draws no sample. -/
theorem nonpositive_budget_behaviour (n : Int) (s : Cplx) (m : Mandelbrot) (hn : n ≤ 0) :
    (Mandelbrot.new n s).iterations = n ∧ (m.setIterations n).iterations = n ∧
      (∀ c : Cplx, (Mandelbrot.new n s).inside_the_mandelbrot c = 0) ∧
      (∀ c : Cplx, (m.setIterations n).inside_the_mandelbrot c = 0) ∧
      (Mandelbrot.new n s).visualize = [] ∧ (m.setIterations n).visualize = [] := by
  have ht : n.toNat = 0 := by omega
  refine ⟨rfl, rfl, ?_, ?_, ?_, ?_⟩
  · intro c
    exact insideLoop_nonpos _ c 0 _ hn
  · intro c
    exact insideLoop_nonpos _ c 0 _ hn
  · simp [Mandelbrot.visualize, Mandelbrot.new, ht]
  · simp [Mandelbrot.visualize, Mandelbrot.setIterations, ht]

/-- C8, amended, at `n = -3`. -/
theorem nonpositive_budget_behaviour_witness :
    (-3 : Int) ≤ 0 ∧ (Mandelbrot.new (-3) ⟨0, 0⟩).iterations = -3 ∧
      (Mandelbrot.new (-3) ⟨0, 0⟩).visualize = [] :=
  ⟨by decide,
    (nonpositive_budget_behaviour (-3) ⟨0, 0⟩ (Mandelbrot.new 1000 ⟨0, 0⟩) (by decide)).1,
    (nonpositive_budget_behaviour (-3) ⟨0, 0⟩ (Mandelbrot.new 1000 ⟨0, 0⟩)
      (by decide)).2.2.2.2.1⟩

/-- C10: for every result `r ≥ 0` with `245 * r < 2^31` the colour drawn is
black `(0, 0, 0)` exactly when 51 divides `r`; so the non-zero result 51 is
drawn black, and with budget 52 the evaluator only returns 0 or 51 and every
sample of the pass is drawn black. -/
theorem black_iff_multiple_of_51 (r : Int) (h0 : 0 ≤ r) (hno : 245 * r < 2 ^ 31) :
    (((Mandelbrot.colour r).1 = 0 ∧ (Mandelbrot.colour r).2.1 = 0 ∧
          (Mandelbrot.colour r).2.2.1 = 0) ↔ (51 : Int) ∣ r) ∧
      ((51 : Int) ≠ 0 ∧ Mandelbrot.colour 51 = (0, 0, 0, 255)) ∧
      (∀ (m : Mandelbrot) (c : Cplx), m.iterations = 52 →
        m.inside_the_mandelbrot c = 0 ∨ m.inside_the_mandelbrot c = 51) ∧
      (∀ m : Mandelbrot, m.iterations = 52 → ∀ d ∈ m.visualize,
        (d.r, d.g, d.b, d.a) = (0, 0, 0, 255)) := by
  have h52 : ∀ (m : Mandelbrot) (c : Cplx), m.iterations = 52 →
      m.inside_the_mandelbrot c = 0 ∨ m.inside_the_mandelbrot c = 51 := by
    intro m c hm
    rcases inside_zero_or_last m c (by omega) with h | h
    · exact Or.inl h
    · exact Or.inr (by omega)
  refine ⟨?_, ⟨by decide, rfl⟩, h52, ?_⟩
  · by_cases hr : r = 0
    · subst hr
      exact ⟨fun _ => dvd_zero _, fun _ => ⟨rfl, rfl, rfl⟩⟩
    · rw [colour_pos r (by omega) hno]
      constructor
      · rintro ⟨h1, -, -⟩
        have h2 : ((245 * r) % 255).toNat = 0 := h1
        omega
      · intro hd
        have h2 : ((245 * r) % 255).toNat = 0 := by omega
        exact ⟨h2, h2, h2⟩
  · intro m hm d hd
    obtain ⟨i, j, -, -, rfl⟩ := mem_visualize m d hd
    rw [sample_colour]
    rcases h52 m ⟨m.coord i, m.coord j⟩ hm with h | h <;> rw [h] <;> rfl

/-- C10 at `r = 102`, a multiple of 51 that is drawn black, and at sample
`(26, 26)` of the pass with budget 52. -/
theorem black_iff_multiple_of_51_witness :
    (0 : Int) ≤ 102 ∧ (245 : Int) * 102 < 2 ^ 31 ∧
      (((Mandelbrot.colour 102).1 = 0 ∧ (Mandelbrot.colour 102).2.1 = 0 ∧
          (Mandelbrot.colour 102).2.2.1 = 0) ↔ (51 : Int) ∣ 102) ∧
      (∀ d ∈ (Mandelbrot.new 52 ⟨0, 0⟩).visualize, (d.r, d.g, d.b, d.a) = (0, 0, 0, 255)) :=
  ⟨by decide, by decide,
    (black_iff_multiple_of_51 102 (by decide) (by decide)).1,
    (black_iff_multiple_of_51 102 (by decide) (by decide)).2.2.2 (Mandelbrot.new 52 ⟨0, 0⟩) rfl⟩

end MandelbrotOMP
